import Mathlib

set_option maxRecDepth 10000

/-!
Shallow embedding of the raycasting program
(cpp-fundamentals-exercises/raycasting/raycasting_v13.cpp) and proofs about
its specification claims.

Modelling conventions:
- C++ float arithmetic is embedded as exact arithmetic over a linear ordered
  field with a floor structure; the marching loop and the level map are
  polymorphic and computable at the rationals, and instantiable at the reals
  where the code applies transcendental functions (sin, cos, sqrt, acos).
- std::round (round half away from zero) is the function rnd below.
- C fmod for nonnegative arguments is modelled through truncation (cTrunc).
- The while loop of the ray marcher is modelled as fuel-bounded iteration
  (marchLoop): the body runs while the condition holds; 150 units of fuel
  are enough, which is itself proved (marchCond_rayMarch_false and
  marchLoop_add below).
-/

namespace Raycast

/-- WALL_COLOR_X = 10 from the source. -/
def WALL_COLOR_X : ℤ := 10

/-- NUMBER_OF_WALL_SHADES = 16 from the source. -/
def NUMBER_OF_WALL_SHADES : ℕ := 16

/-- WALL_SHADES is the compile-time array 11, 12, ..., 26
(make_array_with_indices with offset 11); entry i holds 11 + i. -/
def WALL_SHADES (i : ℕ) : ℤ := 11 + i

/-- Abstraction over a rectangular ASCII art level map definition
(struct LevelMap): the format string and the two derived dimensions. -/
structure LevelMap where
  format : List Char
  width : ℕ
  height : ℕ
deriving DecidableEq

/-- format.find_first_of of the newline character, cast to unsigned int.
When the string has no newline, std::string npos truncates to 4294967295. -/
def findFirstNewline (s : List Char) : ℕ :=
  (s.findIdx? (fun c => c = '\n')).getD 4294967295

/-- format.find_last_of of the newline character, cast to unsigned int,
with the same npos convention. -/
def findLastNewline (s : List Char) : ℕ :=
  ((s.reverse.findIdx? (fun c => c = '\n')).map (fun i => s.length - 1 - i)).getD 4294967295

/-- The LevelMap constructor: computes width as the first newline position and
height as the last newline position divided by width, then throws
(modelled as none) when width or height is below 3 or when
(width + 1) * height differs from the format size.  Note: natural division
by zero is zero here, where the C++ source has undefined behaviour for an
input starting with a newline; no claim depends on that corner. -/
def LevelMap.make (format : List Char) : Option LevelMap :=
  let width := findFirstNewline format
  let height := findLastNewline format / width
  if width < 3 ∨ height < 3 then none
  else if (width + 1) * height ≠ format.length then none
  else some ⟨format, width, height⟩

/-- LevelMap::is_oob: whether a coordinate is out of bounds. -/
def LevelMap.is_oob (M : LevelMap) (x y : ℤ) : Bool :=
  decide (x < 0) || decide (y < 0) ||
    decide ((M.width : ℤ) ≤ x) || decide ((M.height : ℤ) ≤ y)

/-- LevelMap::is_wall: in bounds and the character at (width + 1) * y + x is
the wall character.  The out-of-range default of getD is never reached for a
map whose format length is (width + 1) * height, matching format.at which
never throws there. -/
def LevelMap.is_wall (M : LevelMap) (x y : ℤ) : Bool :=
  !M.is_oob x y &&
    decide (M.format.getD ((M.width + 1) * y.toNat + x.toNat) ' ' = '#')

/-- std::round followed by a cast to int: round half away from zero. -/
def rnd {α : Type} [LinearOrderedField α] [FloorRing α] (x : α) : ℤ :=
  if 0 ≤ x then ⌊x + 1 / 2⌋ else ⌈x - 1 / 2⌉

/-- State of the per-column ray marching while loop: the marched distance
dist_wall, the hit flag, whether the last test found a wall (hit_wall of the
final iteration, which drives the boundary classification), and the last
tested cell coordinates. -/
structure MarchState (α : Type) where
  dist : α
  hit : Bool
  hitWall : Bool
  cell : ℤ × ℤ
deriving DecidableEq

/-- Loop entry state: dist_wall = 0, hit = false. -/
def marchInit {α : Type} [LinearOrderedField α] : MarchState α :=
  ⟨0, false, false, (0, 0)⟩

/-- The while condition: not hit and dist_wall below MAX_DEPTH = 15. -/
def marchCond {α : Type} [LinearOrderedField α]
    [DecidableRel ((· < ·) : α → α → Prop)] (s : MarchState α) : Bool :=
  !s.hit && decide (s.dist < 15)

/-- One iteration of the loop body: advance by the fixed step 0.1, round the
sampled point to a cell, test the map; hit is out-of-bounds or wall. -/
def marchStep {α : Type} [LinearOrderedField α] [FloorRing α]
    (M : LevelMap) (px py nx ny : α) (s : MarchState α) : MarchState α :=
  let d := s.dist + 1 / 10
  let xx := rnd (px + nx * d)
  let yy := rnd (py + ny * d)
  let hw := M.is_wall xx yy
  ⟨d, M.is_oob xx yy || hw, hw, (xx, yy)⟩

/-- Fuel-bounded iteration of the while loop: run the body while the
condition holds and fuel remains. -/
def marchLoop {α : Type} [LinearOrderedField α] [FloorRing α]
    [DecidableRel ((· < ·) : α → α → Prop)]
    (M : LevelMap) (px py nx ny : α) : ℕ → MarchState α → MarchState α
  | 0, s => s
  | f + 1, s =>
      if marchCond s then marchLoop M px py nx ny f (marchStep M px py nx ny s) else s

/-- The full ray march of one ray: the loop body can execute at most 150
times (each execution adds 0.1 to dist_wall and the guard needs
dist_wall below 15), so 150 units of fuel reach the exit state. -/
def rayMarch {α : Type} [LinearOrderedField α] [FloorRing α]
    [DecidableRel ((· < ·) : α → α → Prop)]
    (M : LevelMap) (px py nx ny : α) : MarchState α :=
  marchLoop M px py nx ny 150 marchInit

/-- X component of the vector from the player to corner i of the hit cell
(corner index i = ty * 2 + tx with tx, ty ranging over 0 and 1, as in the
source loops). -/
def cornerVx (px : ℝ) (xx : ℤ) (i : Fin 4) : ℝ :=
  ((xx : ℝ) + (i.val % 2 : ℕ)) - px

/-- Y component of the vector from the player to corner i of the hit cell. -/
def cornerVy (py : ℝ) (yy : ℤ) (i : Fin 4) : ℝ :=
  ((yy : ℝ) + (i.val / 2 : ℕ)) - py

/-- Euclidean distance from the player to corner i of the hit cell
(the first pair component computed in the source corner loop). -/
noncomputable def cornerDist (px py : ℝ) (xx yy : ℤ) (i : Fin 4) : ℝ :=
  Real.sqrt (cornerVx px xx i * cornerVx px xx i + cornerVy py yy i * cornerVy py yy i)

/-- Dot product of the ray direction with the normalized corner vector
(the second pair component): norm_x * vx / d + norm_y * vy / d.  The source
divides unconditionally; a zero corner distance reaches this division. -/
noncomputable def cornerDot (px py nx ny : ℝ) (xx yy : ℤ) (i : Fin 4) : ℝ :=
  nx * cornerVx px xx i / cornerDist px py xx yy i +
    ny * cornerVy py yy i / cornerDist px py xx yy i

/-- The boundary classification on a wall hit: the source sorts the four
corners by distance ascending and tests whether either of the two first
entries has arccos of its dot product below 0.01.  Ties in the sort leave
the order unspecified in C++ (std::ranges::sort is unstable); this is
modelled as: some corner with at most one strictly closer corner passes the
arccos test. -/
def isBoundary (px py nx ny : ℝ) (xx yy : ℤ) : Prop :=
  ∃ i : Fin 4,
    {j : Fin 4 | cornerDist px py xx yy j < cornerDist px py xx yy i}.Subsingleton ∧
      Real.arccos (cornerDot px py nx ny xx yy i) < 1 / 100

/-- The per-ray output consumed by the renderer: marched distance, hit flag,
and the boundary classification (set only when the final loop iteration hit
a wall, since the source only assigns bound under the hit_wall test). -/
structure HitResult where
  distance : ℝ
  hit : Bool
  is_boundary : Prop

/-- Run one ray end to end over the reals: march, then classify. -/
noncomputable def runRay (M : LevelMap) (px py nx ny : ℝ) : HitResult :=
  let s := rayMarch M px py nx ny
  ⟨s.dist, s.hit, s.hitWall = true ∧ isBoundary px py nx ny s.cell.1 s.cell.2⟩

/-- distance_to_wall_shade from the source: for d below MAX_DEPTH = 15,
shade = clamp(15 - 2 d, 0, 15), and the result indexes WALL_SHADES at
size - 1 - cast(shade * (size / MAX_DEPTH)).  When the cast value exceeds
15 the size_t subtraction wraps and the array access throws (none);
otherwise the entry 11 + (15 - k) is returned.  At or beyond depth 15 the
background color 10 is returned. -/
def distance_to_wall_shade {α : Type} [LinearOrderedField α] [FloorRing α]
    [DecidableRel ((· < ·) : α → α → Prop)] (d : α) : Option ℤ :=
  if d < 15 then
    let shade := min (max (15 - 2 * d) 0) 15
    let k := (⌊shade * (16 / 15)⌋).toNat
    if k ≤ 15 then some (WALL_SHADES (15 - k)) else none
  else some WALL_COLOR_X

/-- The opacity bucket computed inside distance_to_wall_shade before the
array subscript: cast(clamp(15 - 2 d, 0, 15) * (16 / 15)).  Higher value
means a lighter, more opaque shade (lower WALL_SHADES index). -/
def shadeBucket (d : ℚ) : ℕ :=
  (⌊min (max (15 - 2 * d) 0) 15 * (16 / 15 : ℚ)⌋).toNat

/-- The bucket index in the words of the specification (for comparison with
the source formula): floor((D_max - d) * N / D_max) clamped to [0, N - 1]
with D_max = 15 and N = 16. -/
def specShadeBucket (d : ℚ) : ℕ :=
  min 15 (⌊(15 - d) * 16 / 15⌋).toNat

/-- PI2 = 2 pi from the source. -/
noncomputable def PI2 : ℝ := 2 * Real.pi

/-- FOV = pi / 3 from the source. -/
noncomputable def FOV : ℝ := Real.pi / 3

/-- Player state: position in map block units and orientation in radians. -/
structure Player where
  x : ℝ
  y : ℝ
  angle : ℝ

/-- Player::move_up: step forward by 0.1 along the heading. -/
noncomputable def Player.move_up (p : Player) : Player :=
  ⟨p.x + 1 / 10 * Real.sin p.angle, p.y + 1 / 10 * Real.cos p.angle, p.angle⟩

/-- Player::move_down: step backward by 0.1 along the heading. -/
noncomputable def Player.move_down (p : Player) : Player :=
  ⟨p.x - 1 / 10 * Real.sin p.angle, p.y - 1 / 10 * Real.cos p.angle, p.angle⟩

/-- Truncation toward zero, as the C library fmod performs internally. -/
noncomputable def cTrunc (x : ℝ) : ℤ :=
  if 0 ≤ x then ⌊x⌋ else ⌈x⌉

/-- C std::fmod: x - y * trunc(x / y). -/
noncomputable def cFmod (x y : ℝ) : ℝ :=
  x - y * cTrunc (x / y)

/-- Player::turn_ccw: angle = fmod(angle - 0.1 + PI2, PI2). -/
noncomputable def Player.turn_ccw (p : Player) : Player :=
  ⟨p.x, p.y, cFmod (p.angle - 1 / 10 + PI2) PI2⟩

/-- Player::turn_cw: angle = fmod(angle + 0.1, PI2). -/
noncomputable def Player.turn_cw (p : Player) : Player :=
  ⟨p.x, p.y, cFmod (p.angle + 1 / 10) PI2⟩

/-- The Up key handling in main: move forward, then undo with move_down when
the rounded new position is a wall cell. -/
noncomputable def stepForward (M : LevelMap) (p : Player) : Player :=
  let q := p.move_up
  if M.is_wall (rnd q.x) (rnd q.y) then q.move_down else q

/-- The Down key handling in main: move backward, then undo with move_up
when the rounded new position is a wall cell. -/
noncomputable def stepBackward (M : LevelMap) (p : Player) : Player :=
  let q := p.move_down
  if M.is_wall (rnd q.x) (rnd q.y) then q.move_up else q

/-- The floor glyph chosen per row in the column render loop, from
d = 1 - (y - height / 2) / (height / 2) and the fixed thresholds. -/
noncomputable def floorGlyph (h y : ℕ) : String :=
  let d : ℝ := 1 - (((y : ℝ) - (h : ℝ) / 2) / ((h : ℝ) / 2))
  if d < 1 / 4 then "#"
  else if d < 1 / 2 then "x"
  else if d < 3 / 4 then "-"
  else if d < 9 / 10 then "."
  else " "

/-- Output of the per-column render pass: the ray result, the ceiling and
floor split rows, the wall shade, and the glyph written at each row (none
inside the mini-map region, which the column loop skips). -/
structure ColumnOut where
  hit : Bool
  dist : ℝ
  bound : Prop
  distCeiling : ℤ
  distFloor : ℤ
  wallShade : Option ℤ
  glyph : ℕ → Option String

/-- One column of the frame render from main: build the ray from the player
heading and the field-of-view offset of column x, march it, derive the
ceiling and floor rows and the wall shade, and produce the glyph for every
row (ceiling blank, wall block or boundary block, floor gradient), skipping
the rows and columns covered by the mini-map. -/
noncomputable def renderColumn (p : Player) (M : LevelMap) (w h : ℕ) (x : ℕ) : ColumnOut :=
  letI : ∀ q : Prop, Decidable q := fun q => Classical.propDecidable q
  let rayAngle := p.angle - FOV / 2 + ((x : ℝ) * FOV) / (w : ℝ)
  let nx := Real.sin rayAngle
  let ny := Real.cos rayAngle
  let s := rayMarch M p.x p.y nx ny
  let bnd : Prop := s.hitWall = true ∧ isBoundary p.x p.y nx ny s.cell.1 s.cell.2
  let dc : ℤ := rnd ((h : ℝ) / 2 - (h : ℝ) / s.dist)
  let df : ℤ := (h : ℤ) - dc
  ⟨s.hit, s.dist, bnd, dc, df, distance_to_wall_shade s.dist, fun y =>
    if M.width ≤ x ∨ M.height ≤ y then
      some
        (if (y : ℤ) < dc then " "
        else if dc < (y : ℤ) ∧ (y : ℤ) ≤ df then (if bnd then "▓" else "█")
        else floorGlyph h y)
    else none⟩

/-- The 3 by 3 all-wall-bordered map with open center of the specification
example scenario. -/
def map3Format : List Char := "###\n# #\n###\n".toList

/-- The constructed 3 by 3 map (width 3, height 3). -/
def map3 : LevelMap := ⟨map3Format, 3, 3⟩

/-- The 20 by 12 game map hard-coded in main. -/
def gameFormat : List Char :=
  ("####################\n" ++
   "#   ##             #\n" ++
   "#   ##             #\n" ++
   "#                  #\n" ++
   "#         ##########\n" ++
   "#                  #\n" ++
   "######             #\n" ++
   "#    #      ###    #\n" ++
   "#    #      ###    #\n" ++
   "#                  #\n" ++
   "#                  #\n" ++
   "####################\n").toList

/-- The constructed game map (width 20, height 12). -/
def gameMap : LevelMap := ⟨gameFormat, 20, 12⟩

/-- An all-open 31 by 31 map, larger than the maximum depth 15 in every
direction from its center: 31 rows of 31 spaces. -/
def bigFormat : List Char :=
  (List.replicate 31 (List.replicate 31 ' ' ++ ['\n'])).flatten

/-- The constructed all-open map (width 31, height 31). -/
def bigMap : LevelMap := ⟨bigFormat, 31, 31⟩

section LoopLemmas

set_option linter.unusedSectionVars false

variable {α : Type} [LinearOrderedField α] [FloorRing α]
variable [DecidableRel ((· < ·) : α → α → Prop)]

lemma marchLoop_succ (M : LevelMap) (px py nx ny : α) (f : ℕ) (s : MarchState α) :
    marchLoop M px py nx ny (f + 1) s =
      if marchCond s then marchLoop M px py nx ny f (marchStep M px py nx ny s) else s := rfl

lemma marchLoop_of_cond_false (M : LevelMap) (px py nx ny : α) (f : ℕ)
    {s : MarchState α} (h : marchCond s = false) : marchLoop M px py nx ny f s = s := by
  cases f with
  | zero => rfl
  | succ f => rw [marchLoop_succ, if_neg (by simp [h])]

lemma marchLoop_advance (M : LevelMap) (px py nx ny : α) (f : ℕ) {s t : MarchState α}
    (hc : marchCond s = true) (hs : marchStep M px py nx ny s = t) :
    marchLoop M px py nx ny (f + 1) s = marchLoop M px py nx ny f t := by
  rw [marchLoop_succ, if_pos hc, hs]

lemma marchLoop_add (M : LevelMap) (px py nx ny : α) (f g : ℕ) (s : MarchState α) :
    marchLoop M px py nx ny (f + g) s = marchLoop M px py nx ny g (marchLoop M px py nx ny f s) := by
  induction f generalizing s with
  | zero => simp [marchLoop]
  | succ f ih =>
      by_cases hc : marchCond s = true
      · rw [show f + 1 + g = (f + g) + 1 from by omega]
        rw [marchLoop_succ, if_pos hc, marchLoop_succ, if_pos hc, ih]
      · have hc2 : marchCond s = false := by simpa using hc
        rw [marchLoop_of_cond_false M px py nx ny (f + 1) hc2,
            marchLoop_of_cond_false M px py nx ny g hc2,
            marchLoop_of_cond_false M px py nx ny (f + 1 + g) hc2]

lemma marchCond_true {s : MarchState α} (hh : s.hit = false) (hd : s.dist < 15) :
    marchCond s = true := by simp [marchCond, hh, hd]

lemma marchCond_false_of_hit {s : MarchState α} (hh : s.hit = true) :
    marchCond s = false := by simp [marchCond, hh]

end LoopLemmas

lemma rnd_eq {α : Type} [LinearOrderedField α] [FloorRing α] (x : α) (n : ℤ)
    (h0 : 0 ≤ x) (h1 : (n : α) ≤ x + 1 / 2) (h2 : x + 1 / 2 < (n : α) + 1) :
    rnd x = n := by
  unfold rnd
  rw [if_pos h0]
  exact Int.floor_eq_iff.mpr ⟨h1, by linarith⟩

lemma marchStep_eval {α : Type} [LinearOrderedField α] [FloorRing α] (M : LevelMap)
    (px py nx ny d0 d1 : α) (xx yy : ℤ) (hb hw : Bool) (c : ℤ × ℤ)
    (hd : d0 + 1 / 10 = d1)
    (hx : rnd (px + nx * d1) = xx) (hy : rnd (py + ny * d1) = yy)
    (hwall : M.is_wall xx yy = hw) (hhit : (M.is_oob xx yy || hw) = hb) :
    marchStep M px py nx ny ⟨d0, false, false, c⟩ = ⟨d1, hb, hw, (xx, yy)⟩ := by
  subst hd
  simp only [marchStep]
  rw [hx, hy, hwall, hhit]

lemma eval_map3 : rayMarch (α := ℚ) map3 1 1 0 1 = ⟨1/2, true, true, (1, 2)⟩ := by
  have st1 : marchStep (α := ℚ) map3 1 1 0 1 ⟨0, false, false, (0, 0)⟩ = ⟨1/10, false, false, (1, 1)⟩ :=
    marchStep_eval map3 1 1 0 1 0 (1/10) 1 1 false false (0, 0) (by norm_num)
      (rnd_eq _ 1 (by norm_num) (by norm_num) (by norm_num))
      (rnd_eq _ 1 (by norm_num) (by norm_num) (by norm_num)) (by decide) (by decide)
  have st2 : marchStep (α := ℚ) map3 1 1 0 1 ⟨1/10, false, false, (1, 1)⟩ = ⟨1/5, false, false, (1, 1)⟩ :=
    marchStep_eval map3 1 1 0 1 (1/10) (1/5) 1 1 false false (1, 1) (by norm_num)
      (rnd_eq _ 1 (by norm_num) (by norm_num) (by norm_num))
      (rnd_eq _ 1 (by norm_num) (by norm_num) (by norm_num)) (by decide) (by decide)
  have st3 : marchStep (α := ℚ) map3 1 1 0 1 ⟨1/5, false, false, (1, 1)⟩ = ⟨3/10, false, false, (1, 1)⟩ :=
    marchStep_eval map3 1 1 0 1 (1/5) (3/10) 1 1 false false (1, 1) (by norm_num)
      (rnd_eq _ 1 (by norm_num) (by norm_num) (by norm_num))
      (rnd_eq _ 1 (by norm_num) (by norm_num) (by norm_num)) (by decide) (by decide)
  have st4 : marchStep (α := ℚ) map3 1 1 0 1 ⟨3/10, false, false, (1, 1)⟩ = ⟨2/5, false, false, (1, 1)⟩ :=
    marchStep_eval map3 1 1 0 1 (3/10) (2/5) 1 1 false false (1, 1) (by norm_num)
      (rnd_eq _ 1 (by norm_num) (by norm_num) (by norm_num))
      (rnd_eq _ 1 (by norm_num) (by norm_num) (by norm_num)) (by decide) (by decide)
  have st5 : marchStep (α := ℚ) map3 1 1 0 1 ⟨2/5, false, false, (1, 1)⟩ = ⟨1/2, true, true, (1, 2)⟩ :=
    marchStep_eval map3 1 1 0 1 (2/5) (1/2) 1 2 true true (1, 1) (by norm_num)
      (rnd_eq _ 1 (by norm_num) (by norm_num) (by norm_num))
      (rnd_eq _ 2 (by norm_num) (by norm_num) (by norm_num)) (by decide) (by decide)
  unfold rayMarch marchInit
  rw [show (150 : ℕ) = 149 + 1 from rfl,
    marchLoop_advance map3 1 1 0 1 149 (marchCond_true rfl (by norm_num)) st1]
  rw [show (149 : ℕ) = 148 + 1 from rfl,
    marchLoop_advance map3 1 1 0 1 148 (marchCond_true rfl (by norm_num)) st2]
  rw [show (148 : ℕ) = 147 + 1 from rfl,
    marchLoop_advance map3 1 1 0 1 147 (marchCond_true rfl (by norm_num)) st3]
  rw [show (147 : ℕ) = 146 + 1 from rfl,
    marchLoop_advance map3 1 1 0 1 146 (marchCond_true rfl (by norm_num)) st4]
  rw [show (146 : ℕ) = 145 + 1 from rfl,
    marchLoop_advance map3 1 1 0 1 145 (marchCond_true rfl (by norm_num)) st5]
  exact marchLoop_of_cond_false map3 1 1 0 1 145 (marchCond_false_of_hit rfl)

lemma eval_game : rayMarch (α := ℚ) gameMap 7 1 0 (-1) = ⟨3/5, true, true, (7, 0)⟩ := by
  have st1 : marchStep (α := ℚ) gameMap 7 1 0 (-1) ⟨0, false, false, (0, 0)⟩ = ⟨1/10, false, false, (7, 1)⟩ :=
    marchStep_eval gameMap 7 1 0 (-1) 0 (1/10) 7 1 false false (0, 0) (by norm_num)
      (rnd_eq _ 7 (by norm_num) (by norm_num) (by norm_num))
      (rnd_eq _ 1 (by norm_num) (by norm_num) (by norm_num)) (by decide) (by decide)
  have st2 : marchStep (α := ℚ) gameMap 7 1 0 (-1) ⟨1/10, false, false, (7, 1)⟩ = ⟨1/5, false, false, (7, 1)⟩ :=
    marchStep_eval gameMap 7 1 0 (-1) (1/10) (1/5) 7 1 false false (7, 1) (by norm_num)
      (rnd_eq _ 7 (by norm_num) (by norm_num) (by norm_num))
      (rnd_eq _ 1 (by norm_num) (by norm_num) (by norm_num)) (by decide) (by decide)
  have st3 : marchStep (α := ℚ) gameMap 7 1 0 (-1) ⟨1/5, false, false, (7, 1)⟩ = ⟨3/10, false, false, (7, 1)⟩ :=
    marchStep_eval gameMap 7 1 0 (-1) (1/5) (3/10) 7 1 false false (7, 1) (by norm_num)
      (rnd_eq _ 7 (by norm_num) (by norm_num) (by norm_num))
      (rnd_eq _ 1 (by norm_num) (by norm_num) (by norm_num)) (by decide) (by decide)
  have st4 : marchStep (α := ℚ) gameMap 7 1 0 (-1) ⟨3/10, false, false, (7, 1)⟩ = ⟨2/5, false, false, (7, 1)⟩ :=
    marchStep_eval gameMap 7 1 0 (-1) (3/10) (2/5) 7 1 false false (7, 1) (by norm_num)
      (rnd_eq _ 7 (by norm_num) (by norm_num) (by norm_num))
      (rnd_eq _ 1 (by norm_num) (by norm_num) (by norm_num)) (by decide) (by decide)
  have st5 : marchStep (α := ℚ) gameMap 7 1 0 (-1) ⟨2/5, false, false, (7, 1)⟩ = ⟨1/2, false, false, (7, 1)⟩ :=
    marchStep_eval gameMap 7 1 0 (-1) (2/5) (1/2) 7 1 false false (7, 1) (by norm_num)
      (rnd_eq _ 7 (by norm_num) (by norm_num) (by norm_num))
      (rnd_eq _ 1 (by norm_num) (by norm_num) (by norm_num)) (by decide) (by decide)
  have st6 : marchStep (α := ℚ) gameMap 7 1 0 (-1) ⟨1/2, false, false, (7, 1)⟩ = ⟨3/5, true, true, (7, 0)⟩ :=
    marchStep_eval gameMap 7 1 0 (-1) (1/2) (3/5) 7 0 true true (7, 1) (by norm_num)
      (rnd_eq _ 7 (by norm_num) (by norm_num) (by norm_num))
      (rnd_eq _ 0 (by norm_num) (by norm_num) (by norm_num)) (by decide) (by decide)
  unfold rayMarch marchInit
  rw [show (150 : ℕ) = 149 + 1 from rfl,
    marchLoop_advance gameMap 7 1 0 (-1) 149 (marchCond_true rfl (by norm_num)) st1]
  rw [show (149 : ℕ) = 148 + 1 from rfl,
    marchLoop_advance gameMap 7 1 0 (-1) 148 (marchCond_true rfl (by norm_num)) st2]
  rw [show (148 : ℕ) = 147 + 1 from rfl,
    marchLoop_advance gameMap 7 1 0 (-1) 147 (marchCond_true rfl (by norm_num)) st3]
  rw [show (147 : ℕ) = 146 + 1 from rfl,
    marchLoop_advance gameMap 7 1 0 (-1) 146 (marchCond_true rfl (by norm_num)) st4]
  rw [show (146 : ℕ) = 145 + 1 from rfl,
    marchLoop_advance gameMap 7 1 0 (-1) 145 (marchCond_true rfl (by norm_num)) st5]
  rw [show (145 : ℕ) = 144 + 1 from rfl,
    marchLoop_advance gameMap 7 1 0 (-1) 144 (marchCond_true rfl (by norm_num)) st6]
  exact marchLoop_of_cond_false gameMap 7 1 0 (-1) 144 (marchCond_false_of_hit rfl)


lemma marchCond_dist_lt {α : Type} [LinearOrderedField α]
    [DecidableRel ((· < ·) : α → α → Prop)] {s : MarchState α}
    (h : marchCond s = true) : s.hit = false ∧ s.dist < 15 := by
  simpa [marchCond] using h

lemma marchLoop_dist {α : Type} [LinearOrderedField α] [FloorRing α]
    [DecidableRel ((· < ·) : α → α → Prop)] (M : LevelMap) (px py nx ny : α) :
    ∀ (f : ℕ) (s : MarchState α), marchCond (marchLoop M px py nx ny f s) = true →
      (marchLoop M px py nx ny f s).dist = s.dist + (f : α) / 10 := by
  intro f
  induction f with
  | zero => intro s _; simp [marchLoop]
  | succ f ih =>
      intro s h
      by_cases hc : marchCond s = true
      · rw [marchLoop_succ, if_pos hc] at h ⊢
        rw [ih _ h]
        simp only [marchStep]
        push_cast
        ring
      · rw [marchLoop_of_cond_false M px py nx ny (f + 1)
          (by simpa using hc)] at h
        exact absurd h hc

lemma marchCond_rayMarch_false {α : Type} [LinearOrderedField α] [FloorRing α]
    [DecidableRel ((· < ·) : α → α → Prop)] (M : LevelMap) (px py nx ny : α) :
    marchCond (rayMarch M px py nx ny) = false := by
  by_contra h
  have h2 : marchCond (rayMarch M px py nx ny) = true := by
    cases h3 : marchCond (rayMarch M px py nx ny)
    · exact absurd h3 h
    · rfl
  have hd := marchLoop_dist M px py nx ny 150 marchInit h2
  have hlt := (marchCond_dist_lt h2).2
  rw [show rayMarch M px py nx ny = marchLoop M px py nx ny 150 marchInit from rfl, hd] at hlt
  simp only [marchInit] at hlt
  norm_num at hlt

lemma marchLoop_hit_false_dist {α : Type} [LinearOrderedField α] [FloorRing α]
    [DecidableRel ((· < ·) : α → α → Prop)] (M : LevelMap) (px py nx ny : α) :
    ∀ (f j : ℕ) (s : MarchState α), s.hit = false → s.dist = (j : α) / 10 →
      j + f = 150 → (marchLoop M px py nx ny f s).hit = false →
      (marchLoop M px py nx ny f s).dist = 15 := by
  intro f
  induction f with
  | zero =>
      intro j s hh hd hj _
      have : j = 150 := by omega
      subst this
      simp [marchLoop, hd]
      norm_num
  | succ f ih =>
      intro j s hh hd hj hres
      by_cases hc : marchCond s = true
      · rw [marchLoop_succ, if_pos hc] at hres ⊢
        cases hsh : (marchStep M px py nx ny s).hit with
        | true =>
            rw [marchLoop_of_cond_false M px py nx ny f (marchCond_false_of_hit hsh)] at hres
            exact absurd hres (by simp [hsh])
        | false =>
            refine ih (j + 1) _ hsh ?_ (by omega) hres
            simp only [marchStep]
            rw [hd]
            push_cast
            ring
      · have hc2 : marchCond s = false := by simpa using hc
        rw [marchLoop_of_cond_false M px py nx ny (f + 1) hc2] at hres ⊢
        have hnlt : ¬ s.dist < 15 := by
          intro hlt
          rw [marchCond_true hh hlt] at hc2
          simp at hc2
        have hj2 : j ≤ 149 := by omega
        have : s.dist < 15 := by
          rw [hd]
          have : (j : α) ≤ 149 := by exact_mod_cast Nat.cast_le.mpr hj2
          nlinarith
        exact absurd this hnlt

lemma rayMarch_hit_false_dist {α : Type} [LinearOrderedField α] [FloorRing α]
    [DecidableRel ((· < ·) : α → α → Prop)] (M : LevelMap) (px py nx ny : α)
    (h : (rayMarch M px py nx ny).hit = false) : (rayMarch M px py nx ny).dist = 15 :=
  marchLoop_hit_false_dist M px py nx ny 150 0 marchInit rfl (by simp [marchInit]) rfl h

lemma marchLoop_open {α : Type} [LinearOrderedField α] [FloorRing α]
    [DecidableRel ((· < ·) : α → α → Prop)] (M : LevelMap) (px py nx ny : α) :
    ∀ (f j : ℕ) (s : MarchState α), s.hit = false → s.dist = (j : α) / 10 →
      j + f ≤ 150 →
      (∀ k : ℕ, j < k → k ≤ j + f →
        M.is_oob (rnd (px + nx * ((k : α) / 10))) (rnd (py + ny * ((k : α) / 10))) = false ∧
        M.is_wall (rnd (px + nx * ((k : α) / 10))) (rnd (py + ny * ((k : α) / 10))) = false) →
      (marchLoop M px py nx ny f s).hit = false ∧
        (marchLoop M px py nx ny f s).dist = ((j + f : ℕ) : α) / 10 := by
  intro f
  induction f with
  | zero =>
      intro j s hh hd _ _
      simpa [marchLoop, hh] using hd
  | succ f ih =>
      intro j s hh hd hjf h
      have hdlt : s.dist < 15 := by
        rw [hd]
        have : (j : α) ≤ 149 := by
          have : j ≤ 149 := by omega
          exact_mod_cast Nat.cast_le.mpr this
        nlinarith
      rw [marchLoop_succ, if_pos (marchCond_true hh hdlt)]
      have harg : s.dist + 1 / 10 = ((j + 1 : ℕ) : α) / 10 := by
        rw [hd]
        push_cast
        ring
      have hstep : marchStep M px py nx ny s =
          ⟨((j + 1 : ℕ) : α) / 10,
            M.is_oob (rnd (px + nx * (((j + 1 : ℕ) : α) / 10))) (rnd (py + ny * (((j + 1 : ℕ) : α) / 10))) ||
              M.is_wall (rnd (px + nx * (((j + 1 : ℕ) : α) / 10))) (rnd (py + ny * (((j + 1 : ℕ) : α) / 10))),
            M.is_wall (rnd (px + nx * (((j + 1 : ℕ) : α) / 10))) (rnd (py + ny * (((j + 1 : ℕ) : α) / 10))),
            (rnd (px + nx * (((j + 1 : ℕ) : α) / 10)), rnd (py + ny * (((j + 1 : ℕ) : α) / 10)))⟩ := by
        simp only [marchStep, harg]
      obtain ⟨hoob, hwall⟩ := h (j + 1) (by omega) (by omega)
      rw [hstep]
      have hres := ih (j + 1)
        ⟨((j + 1 : ℕ) : α) / 10, false, false,
          (rnd (px + nx * (((j + 1 : ℕ) : α) / 10)), rnd (py + ny * (((j + 1 : ℕ) : α) / 10)))⟩
        rfl rfl (by omega)
        (fun k hk1 hk2 => h k (by omega) (by omega))
      rw [hoob, hwall] at hstep ⊢
      simp only [Bool.or_false]
      have : (j + 1) + f = j + (f + 1) := by omega
      rw [this] at hres
      exact hres

lemma rnd_intCast {α : Type} [LinearOrderedField α] [FloorRing α] (n : ℤ) :
    rnd ((n : α)) = n := by
  unfold rnd
  by_cases h : (0 : α) ≤ (n : α)
  · rw [if_pos h]
    exact Int.floor_eq_iff.mpr ⟨by linarith, by linarith⟩
  · rw [if_neg h]
    exact Int.ceil_eq_iff.mpr ⟨by linarith, by linarith⟩

lemma rnd_le {α : Type} [LinearOrderedField α] [FloorRing α] (x : α) (n : ℤ)
    (h0 : 0 ≤ x) (h : x ≤ (n : α)) : rnd x ≤ n := by
  unfold rnd
  rw [if_pos h0, Int.floor_le_iff]
  linarith

lemma le_rnd {α : Type} [LinearOrderedField α] [FloorRing α] (x : α) (n : ℤ)
    (h0 : 0 ≤ x) (h : (n : α) ≤ x) : n ≤ rnd x := by
  unfold rnd
  rw [if_pos h0, Int.le_floor]
  linarith

/-- A marching state over the rationals viewed over the reals. -/
def castState (s : MarchState ℚ) : MarchState ℝ :=
  ⟨(s.dist : ℝ), s.hit, s.hitWall, s.cell⟩

lemma rnd_ratCast (q : ℚ) : rnd ((q : ℝ)) = rnd q := by
  unfold rnd
  by_cases h : 0 ≤ q
  · rw [if_pos (by exact_mod_cast h), if_pos h,
      show ((q : ℝ) + 1 / 2) = (((q + 1 / 2 : ℚ) : ℝ)) from by push_cast; ring, Rat.floor_cast]
  · rw [if_neg (by exact_mod_cast h), if_neg h,
      show ((q : ℝ) - 1 / 2) = (((q - 1 / 2 : ℚ) : ℝ)) from by push_cast; ring, Rat.ceil_cast]

lemma marchStep_cast (M : LevelMap) (px py nx ny : ℚ) (s : MarchState ℚ) :
    marchStep M (px : ℝ) (py : ℝ) (nx : ℝ) (ny : ℝ) (castState s) =
      castState (marchStep M px py nx ny s) := by
  simp only [marchStep, castState]
  rw [show ((px : ℝ) + (nx : ℝ) * ((s.dist : ℝ) + 1 / 10)) =
        (((px + nx * (s.dist + 1 / 10) : ℚ) : ℝ)) from by push_cast; ring,
      show ((py : ℝ) + (ny : ℝ) * ((s.dist : ℝ) + 1 / 10)) =
        (((py + ny * (s.dist + 1 / 10) : ℚ) : ℝ)) from by push_cast; ring,
      rnd_ratCast, rnd_ratCast]
  simp only [MarchState.mk.injEq]
  exact ⟨by push_cast; ring, trivial, trivial, trivial⟩

lemma marchCond_cast (s : MarchState ℚ) : marchCond (castState s) = marchCond s := by
  simp only [marchCond, castState]
  congr 1
  exact decide_eq_decide.mpr (by exact_mod_cast Iff.rfl)

lemma marchLoop_cast (M : LevelMap) (px py nx ny : ℚ) :
    ∀ (f : ℕ) (s : MarchState ℚ),
      marchLoop M (px : ℝ) (py : ℝ) (nx : ℝ) (ny : ℝ) f (castState s) =
        castState (marchLoop M px py nx ny f s) := by
  intro f
  induction f with
  | zero => intro s; rfl
  | succ f ih =>
      intro s
      rw [marchLoop_succ, marchLoop_succ, marchCond_cast]
      by_cases h : marchCond s = true
      · rw [if_pos h, if_pos h, marchStep_cast, ih]
      · rw [if_neg h, if_neg h]

lemma rayMarch_cast (M : LevelMap) (px py nx ny : ℚ) :
    rayMarch M (px : ℝ) (py : ℝ) (nx : ℝ) (ny : ℝ) = castState (rayMarch M px py nx ny) := by
  unfold rayMarch
  rw [show (marchInit : MarchState ℝ) = castState marchInit from by simp [castState, marchInit],
    marchLoop_cast]


lemma make_map3 : LevelMap.make map3Format = some map3 := by decide

lemma make_gameFormat : LevelMap.make gameFormat = some gameMap := by decide

lemma make_bigFormat : LevelMap.make bigFormat = some bigMap := by decide

lemma bigFormat_chars : ∀ c ∈ bigFormat, c = ' ' ∨ c = '\n' := by
  intro c hc
  unfold bigFormat at hc
  rw [List.mem_flatten] at hc
  obtain ⟨l, hl, hcl⟩ := hc
  rw [List.mem_replicate] at hl
  rw [hl.2, List.mem_append] at hcl
  rcases hcl with h | h
  · exact Or.inl (List.eq_of_mem_replicate h)
  · exact Or.inr (List.mem_singleton.mp h)

lemma bigMap_no_wall (x y : ℤ) : bigMap.is_wall x y = false := by
  unfold LevelMap.is_wall
  cases hoob : bigMap.is_oob x y with
  | true => rfl
  | false =>
      simp only [hoob, Bool.not_false, Bool.true_and, decide_eq_false_iff_not]
      intro hch
      simp only [bigMap] at hch
      by_cases hlen : (31 + 1) * y.toNat + x.toNat < bigFormat.length
      · have hmem : bigFormat.getD ((31 + 1) * y.toNat + x.toNat) ' ' ∈ bigFormat := by
          rw [List.getD_eq_getElem?_getD, List.getElem?_eq_getElem hlen]
          exact List.getElem_mem hlen
        rcases bigFormat_chars _ hmem with h | h <;> rw [hch] at h <;>
          exact absurd h (by decide)
      · rw [List.getD_eq_getElem?_getD, List.getElem?_eq_none (by omega)] at hch
        exact absurd hch (by decide)

lemma is_oob_false_iff (M : LevelMap) (x y : ℤ) :
    M.is_oob x y = false ↔ 0 ≤ x ∧ 0 ≤ y ∧ x < (M.width : ℤ) ∧ y < (M.height : ℤ) := by
  unfold LevelMap.is_oob
  simp [not_lt, not_le]
  omega

lemma bigMap_open_hyp : ∀ k : ℕ, 1 ≤ k → k ≤ 150 →
    bigMap.is_oob (rnd ((15 : ℚ) + 0 * ((k : ℚ) / 10))) (rnd ((15 : ℚ) + 1 * ((k : ℚ) / 10))) = false ∧
    bigMap.is_wall (rnd ((15 : ℚ) + 0 * ((k : ℚ) / 10))) (rnd ((15 : ℚ) + 1 * ((k : ℚ) / 10))) = false := by
  intro k _ h2
  have hk0 : (0 : ℚ) ≤ (k : ℚ) := Nat.cast_nonneg k
  have hk150 : (k : ℚ) ≤ 150 := by exact_mod_cast h2
  have hx : rnd ((15 : ℚ) + 0 * ((k : ℚ) / 10)) = 15 := by
    rw [show (15 : ℚ) + 0 * ((k : ℚ) / 10) = ((15 : ℤ) : ℚ) from by push_cast; ring, rnd_intCast]
  have harg0 : (0 : ℚ) ≤ 15 + 1 * ((k : ℚ) / 10) := by linarith
  have hylo : (15 : ℤ) ≤ rnd ((15 : ℚ) + 1 * ((k : ℚ) / 10)) :=
    le_rnd _ _ harg0 (by push_cast; linarith)
  have hyhi : rnd ((15 : ℚ) + 1 * ((k : ℚ) / 10)) ≤ 30 :=
    rnd_le _ _ harg0 (by push_cast; linarith)
  refine ⟨?_, bigMap_no_wall _ _⟩
  rw [hx, is_oob_false_iff]
  simp only [bigMap]
  exact ⟨by norm_num, by omega, by norm_num, by omega⟩

lemma fin4_val_0 : ((0 : Fin 4)).val = 0 := rfl

lemma fin4_val_1 : ((1 : Fin 4)).val = 1 := rfl

lemma fin4_val_2 : ((2 : Fin 4)).val = 2 := rfl

lemma fin4_val_3 : ((3 : Fin 4)).val = 3 := rfl

lemma map3_corner_dist_0 : cornerDist 1 1 1 2 0 = 1 := by
  have h : cornerVx 1 1 (0 : Fin 4) * cornerVx 1 1 0 + cornerVy 1 2 0 * cornerVy 1 2 0 = 1 := by
    unfold cornerVx cornerVy
    norm_num [fin4_val_0]
  unfold cornerDist
  rw [h, Real.sqrt_one]

lemma map3_corner_ge_1 : (1 : ℝ) ≤ cornerDist 1 1 1 2 1 := by
  have h : cornerVx 1 1 (1 : Fin 4) * cornerVx 1 1 1 + cornerVy 1 2 1 * cornerVy 1 2 1 = 2 := by
    unfold cornerVx cornerVy
    norm_num [fin4_val_1]
  unfold cornerDist
  rw [h, show (1 : ℝ) = Real.sqrt 1 from Real.sqrt_one.symm]
  exact Real.sqrt_le_sqrt (by norm_num)

lemma map3_corner_ge_2 : (1 : ℝ) ≤ cornerDist 1 1 1 2 2 := by
  have h : cornerVx 1 1 (2 : Fin 4) * cornerVx 1 1 2 + cornerVy 1 2 2 * cornerVy 1 2 2 = 4 := by
    unfold cornerVx cornerVy
    norm_num [fin4_val_2]
  unfold cornerDist
  rw [h, show (1 : ℝ) = Real.sqrt 1 from Real.sqrt_one.symm]
  exact Real.sqrt_le_sqrt (by norm_num)

lemma map3_corner_ge_3 : (1 : ℝ) ≤ cornerDist 1 1 1 2 3 := by
  have h : cornerVx 1 1 (3 : Fin 4) * cornerVx 1 1 3 + cornerVy 1 2 3 * cornerVy 1 2 3 = 5 := by
    unfold cornerVx cornerVy
    norm_num [fin4_val_3]
  unfold cornerDist
  rw [h, show (1 : ℝ) = Real.sqrt 1 from Real.sqrt_one.symm]
  exact Real.sqrt_le_sqrt (by norm_num)

lemma map3_corner_dist_ge (j : Fin 4) : (1 : ℝ) ≤ cornerDist 1 1 1 2 j := by
  fin_cases j
  · exact le_of_eq map3_corner_dist_0.symm
  · exact map3_corner_ge_1
  · exact map3_corner_ge_2
  · exact map3_corner_ge_3

lemma map3_corner_dot_0 : cornerDot 1 1 0 1 1 2 0 = 1 := by
  unfold cornerDot
  rw [map3_corner_dist_0]
  unfold cornerVx cornerVy
  norm_num [fin4_val_0]

lemma map3_isBoundary : isBoundary 1 1 0 1 1 2 := by
  refine ⟨0, ?_, ?_⟩
  · intro a ha b hb
    exfalso
    rw [Set.mem_setOf_eq, map3_corner_dist_0] at ha
    exact absurd ha (not_lt.mpr (map3_corner_dist_ge a))
  · rw [map3_corner_dot_0, Real.arccos_one]
    norm_num

lemma game_corner_dist_2 : cornerDist 7 1 7 0 2 = 0 := by
  have h : cornerVx 7 7 (2 : Fin 4) * cornerVx 7 7 2 + cornerVy 1 0 2 * cornerVy 1 0 2 = 0 := by
    unfold cornerVx cornerVy
    norm_num [fin4_val_2]
  unfold cornerDist
  rw [h, Real.sqrt_zero]

lemma game_corner_dot_2 : cornerDot 7 1 0 (-1) 7 0 2 = 0 := by
  unfold cornerDot
  rw [game_corner_dist_2]
  unfold cornerVx cornerVy
  norm_num [fin4_val_2]

lemma rayMarch_map3_real :
    rayMarch (α := ℝ) map3 1 1 (Real.sin 0) (Real.cos 0) = ⟨1 / 2, true, true, (1, 2)⟩ := by
  rw [Real.sin_zero, Real.cos_zero]
  have h : rayMarch (α := ℝ) map3 ((1 : ℚ) : ℝ) ((1 : ℚ) : ℝ) ((0 : ℚ) : ℝ) ((1 : ℚ) : ℝ) =
      castState ⟨1 / 2, true, true, (1, 2)⟩ := by
    rw [rayMarch_cast, eval_map3]
  push_cast at h
  rw [h]
  simp [castState]

lemma rayMarch_game_real :
    rayMarch (α := ℝ) gameMap 7 1 (Real.sin Real.pi) (Real.cos Real.pi) = ⟨3 / 5, true, true, (7, 0)⟩ := by
  rw [Real.sin_pi, Real.cos_pi]
  have h : rayMarch (α := ℝ) gameMap ((7 : ℚ) : ℝ) ((1 : ℚ) : ℝ) ((0 : ℚ) : ℝ) (((-1) : ℚ) : ℝ) =
      castState ⟨3 / 5, true, true, (7, 0)⟩ := by
    rw [rayMarch_cast, eval_game]
  push_cast at h
  rw [h]
  simp [castState]


lemma shade_eval (d : ℚ) (h0 : 0 < d) (h15 : d < 15) :
    shadeBucket d ≤ 15 ∧
      distance_to_wall_shade d = some (WALL_SHADES (15 - shadeBucket d)) := by
  have hsh : min (max (15 - 2 * d) 0) 15 < 15 :=
    min_lt_iff.mpr (Or.inl (max_lt (by linarith) (by norm_num)))
  have hsh0 : (0 : ℚ) ≤ min (max (15 - 2 * d) 0) 15 :=
    le_min (le_max_right _ _) (by norm_num)
  have hk : ⌊min (max (15 - 2 * d) 0) 15 * (16 / 15 : ℚ)⌋ ≤ 15 := by
    have hlt : min (max (15 - 2 * d) 0) 15 * (16 / 15 : ℚ) < 16 := by nlinarith
    exact Int.floor_le_iff.mpr (by push_cast; linarith)
  have hkn : shadeBucket d ≤ 15 := by
    unfold shadeBucket
    exact Int.toNat_le.mpr (by exact_mod_cast hk)
  refine ⟨hkn, ?_⟩
  have hkn2 : (⌊min (max (15 - 2 * d) 0) 15 * (16 / 15 : ℚ)⌋).toNat ≤ 15 := hkn
  unfold distance_to_wall_shade
  rw [if_pos h15]
  simp only
  rw [if_pos hkn2]
  rfl

lemma shadeBucket_antitone (d1 d2 : ℚ) (h12 : d1 ≤ d2) :
    shadeBucket d2 ≤ shadeBucket d1 := by
  unfold shadeBucket
  have h1 : min (max (15 - 2 * d2) 0) 15 ≤ min (max (15 - 2 * d1) 0) 15 :=
    min_le_min (max_le_max (by linarith) le_rfl) le_rfl
  have h2 : min (max (15 - 2 * d2) 0) 15 * (16 / 15 : ℚ) ≤
      min (max (15 - 2 * d1) 0) 15 * (16 / 15 : ℚ) :=
    mul_le_mul_of_nonneg_right h1 (by norm_num)
  exact Int.toNat_le_toNat (Int.floor_le_floor h2)

lemma cFmod_nonneg_lt (x y : ℝ) (hx : 0 ≤ x) (hy : 0 < y) :
    cFmod x y = x - y * ⌊x / y⌋ ∧ 0 ≤ cFmod x y ∧ cFmod x y < y := by
  have ht : cTrunc (x / y) = ⌊x / y⌋ := by
    unfold cTrunc
    rw [if_pos (div_nonneg hx hy.le)]
  have heq : cFmod x y = x - y * ⌊x / y⌋ := by
    unfold cFmod
    rw [ht]
  refine ⟨heq, ?_, ?_⟩
  · rw [heq]
    have h1 : (⌊x / y⌋ : ℝ) ≤ x / y := Int.floor_le _
    have h2 : y * ((⌊x / y⌋ : ℝ)) ≤ y * (x / y) := mul_le_mul_of_nonneg_left h1 hy.le
    have h3 : y * (x / y) = x := by field_simp
    linarith
  · rw [heq]
    have h1 : x / y < (⌊x / y⌋ : ℝ) + 1 := Int.lt_floor_add_one _
    have h2 : x < ((⌊x / y⌋ : ℝ) + 1) * y := (div_lt_iff₀ hy).mp h1
    nlinarith

lemma move_up_down (p : Player) : p.move_up.move_down = p := by
  obtain ⟨x, y, a⟩ := p
  simp only [Player.move_up, Player.move_down, Player.mk.injEq]
  exact ⟨by ring, by ring, trivial⟩

lemma move_down_up (p : Player) : p.move_down.move_up = p := by
  obtain ⟨x, y, a⟩ := p
  simp only [Player.move_up, Player.move_down, Player.mk.injEq]
  exact ⟨by ring, by ring, trivial⟩


/-- C1: for every ray in an all-open region (no wall cell and no
out-of-bounds cell among the 150 samples within range), the ray-march loop
returns hit = false; and whenever hit is false the reported marched
distance equals the fog depth D_max = 15. -/
theorem ray_march_open_miss (M : LevelMap) (px py nx ny : ℚ) :
    ((rayMarch M px py nx ny).hit = false → (rayMarch M px py nx ny).dist = 15) ∧
    ((∀ k : ℕ, 1 ≤ k → k ≤ 150 →
        M.is_oob (rnd (px + nx * ((k : ℚ) / 10))) (rnd (py + ny * ((k : ℚ) / 10))) = false ∧
        M.is_wall (rnd (px + nx * ((k : ℚ) / 10))) (rnd (py + ny * ((k : ℚ) / 10))) = false) →
      (rayMarch M px py nx ny).hit = false ∧ (rayMarch M px py nx ny).dist = 15) := by
  constructor
  · exact rayMarch_hit_false_dist M px py nx ny
  · intro h
    have hres := marchLoop_open M px py nx ny 150 0 marchInit rfl (by simp [marchInit])
      (by omega) (fun k hk1 hk2 => h k (by omega) (by omega))
    refine ⟨hres.1, ?_⟩
    rw [show rayMarch M px py nx ny = marchLoop M px py nx ny 150 marchInit from rfl, hres.2]
    norm_num

/-- Witness for C1: the 31 by 31 all-open map with the ray started at its
center in direction (0, 1) misses and reports distance 15. -/
theorem ray_march_open_miss_witness :
    (rayMarch (α := ℚ) bigMap 15 15 0 1).hit = false ∧
      (rayMarch (α := ℚ) bigMap 15 15 0 1).dist = 15 := by
  have h := (ray_march_open_miss bigMap 15 15 0 1).2 bigMap_open_hyp
  exact ⟨h.1, (ray_march_open_miss bigMap 15 15 0 1).1 h.1⟩

/-- C10: the marching loop terminates within 150 iterations: the while
condition is false in the state reached with 150 units of fuel, extra fuel
never changes the result, and every executed iteration advances the marched
distance by exactly 0.1. -/
theorem ray_march_terminates (M : LevelMap) (px py nx ny : ℚ) :
    marchCond (rayMarch M px py nx ny) = false ∧
    (∀ f : ℕ, marchLoop M px py nx ny (150 + f) marchInit = rayMarch M px py nx ny) ∧
    (∀ s : MarchState ℚ, marchCond s = true →
      (marchStep M px py nx ny s).dist = s.dist + 1 / 10) := by
  refine ⟨marchCond_rayMarch_false M px py nx ny, ?_, ?_⟩
  · intro f
    rw [marchLoop_add]
    exact marchLoop_of_cond_false M px py nx ny f (marchCond_rayMarch_false M px py nx ny)
  · intro s _
    simp [marchStep]

/-- Witness for C10 at the 3 by 3 map scenario. -/
theorem ray_march_terminates_witness :
    marchCond (rayMarch (α := ℚ) map3 1 1 0 1) = false ∧
      (marchStep (α := ℚ) map3 1 1 0 1 marchInit).dist = marchInit.dist + 1 / 10 :=
  ⟨(ray_march_terminates map3 1 1 0 1).1,
    (ray_march_terminates map3 1 1 0 1).2.2 marchInit
      (marchCond_true rfl (by norm_num [marchInit]))⟩

/-- C2 counterexample: in the 3 by 3 scenario (player at the center facing
0 rad, straight-ahead ray), the marched distance is 0.5, strictly below the
claimed interval [1 - 0.1, 1 + 0.1]. -/
theorem ray_adjacent_wall_cx :
    (runRay map3 1 1 (Real.sin 0) (Real.cos 0)).distance < 9 / 10 := by
  unfold runRay
  rw [rayMarch_map3_real]
  norm_num

/-- C2 amended: the straight-ahead ray in the 3 by 3 scenario hits with
marched distance exactly 0.5 (the ray enters the rounding region of the
wall cell at half a unit), and is_boundary is true (the ray passes exactly
through the corner lattice point (1, 2) of the hit cell). -/
theorem ray_adjacent_wall_amended :
    (runRay map3 1 1 (Real.sin 0) (Real.cos 0)).hit = true ∧
    (runRay map3 1 1 (Real.sin 0) (Real.cos 0)).distance = 1 / 2 ∧
    (runRay map3 1 1 (Real.sin 0) (Real.cos 0)).is_boundary := by
  unfold runRay
  rw [rayMarch_map3_real]
  refine ⟨rfl, rfl, rfl, ?_⟩
  rw [Real.sin_zero, Real.cos_zero]
  exact map3_isBoundary

/-- C8 counterexample: a reachable wall hit whose boundary check processes a
corner at distance zero from the ray origin: the player standing exactly at
(7, 1) on the game map, ray direction (sin pi, cos pi) = (0, -1); the hit
cell is (7, 0) and its corner (7, 1) coincides with the origin, so the
division by the corner distance receives a zero divisor and is not skipped. -/
theorem boundary_zero_corner_cx :
    (rayMarch (α := ℝ) gameMap 7 1 (Real.sin Real.pi) (Real.cos Real.pi)).hitWall = true ∧
    cornerDist 7 1
      (rayMarch (α := ℝ) gameMap 7 1 (Real.sin Real.pi) (Real.cos Real.pi)).cell.1
      (rayMarch (α := ℝ) gameMap 7 1 (Real.sin Real.pi) (Real.cos Real.pi)).cell.2 2 = 0 := by
  rw [rayMarch_game_real]
  exact ⟨rfl, game_corner_dist_2⟩

/-- C8 amended: no zero-distance guard exists; the boundary computation runs
on the zero-distance corner.  In the exact model the dot product of that
corner is formed with a zero divisor and evaluates to 0, whose arccos is
pi / 2, so that corner never passes the 0.01 threshold (in IEEE floats the
same corner produces NaN with the same non-triggering comparison). -/
theorem boundary_zero_corner_amended :
    (rayMarch (α := ℝ) gameMap 7 1 (Real.sin Real.pi) (Real.cos Real.pi)).cell = (7, 0) ∧
    cornerDist 7 1 7 0 2 = 0 ∧
    cornerDot 7 1 (Real.sin Real.pi) (Real.cos Real.pi) 7 0 2 = 0 ∧
    ¬ Real.arccos (cornerDot 7 1 (Real.sin Real.pi) (Real.cos Real.pi) 7 0 2) < 1 / 100 := by
  refine ⟨by rw [rayMarch_game_real], game_corner_dist_2, ?_, ?_⟩
  · rw [Real.sin_pi, Real.cos_pi]
    exact game_corner_dot_2
  · rw [Real.sin_pi, Real.cos_pi, game_corner_dot_2, Real.arccos_zero]
    simp only [not_lt]
    linarith [Real.pi_gt_three]

/-- C3: a Forward or Backward command computes the tentative position
(x, y) plus or minus 0.1 (sin heading, cos heading) and commits it exactly
when the rounded tentative cell is not a wall: a rejected move leaves the
position unchanged and an accepted move changes it by exactly the delta. -/
theorem move_commit_or_reject (M : LevelMap) (p : Player) :
    (M.is_wall (rnd p.move_up.x) (rnd p.move_up.y) = true → stepForward M p = p) ∧
    (M.is_wall (rnd p.move_up.x) (rnd p.move_up.y) = false →
      stepForward M p = p.move_up ∧
      p.move_up.x = p.x + 1 / 10 * Real.sin p.angle ∧
      p.move_up.y = p.y + 1 / 10 * Real.cos p.angle ∧ p.move_up.angle = p.angle) ∧
    (M.is_wall (rnd p.move_down.x) (rnd p.move_down.y) = true → stepBackward M p = p) ∧
    (M.is_wall (rnd p.move_down.x) (rnd p.move_down.y) = false →
      stepBackward M p = p.move_down ∧
      p.move_down.x = p.x - 1 / 10 * Real.sin p.angle ∧
      p.move_down.y = p.y - 1 / 10 * Real.cos p.angle ∧ p.move_down.angle = p.angle) := by
  refine ⟨?_, ?_, ?_, ?_⟩
  · intro h
    simp only [stepForward, h, if_true]
    exact move_up_down p
  · intro h
    simp only [stepForward, h]
    exact ⟨by simp, rfl, rfl, rfl⟩
  · intro h
    simp only [stepBackward, h, if_true]
    exact move_down_up p
  · intro h
    simp only [stepBackward, h]
    exact ⟨by simp, rfl, rfl, rfl⟩

/-- Witness for C3: on the 3 by 3 map, a player at (1, 1.4) facing 0 rad has
the forward move into the wall cell (1, 2) rejected, leaving the position
unchanged. -/
theorem move_commit_or_reject_witness :
    stepForward map3 ⟨1, 14 / 10, 0⟩ = ⟨1, 14 / 10, 0⟩ := by
  have hx : (Player.mk 1 (14 / 10) 0).move_up.x = ((1 : ℤ) : ℝ) := by
    simp [Player.move_up]
  have hy : (Player.mk 1 (14 / 10) 0).move_up.y = (3 : ℝ) / 2 := by
    simp [Player.move_up]
    norm_num
  have hw : map3.is_wall (rnd (Player.mk 1 (14 / 10) 0).move_up.x)
      (rnd (Player.mk 1 (14 / 10) 0).move_up.y) = true := by
    rw [hx, hy, rnd_intCast, rnd_eq ((3 : ℝ) / 2) 2 (by norm_num) (by norm_num) (by norm_num)]
    decide
  exact (move_commit_or_reject map3 ⟨1, 14 / 10, 0⟩).1 hw

/-- C4 counterexample: the layout with rows of lengths 3, 2 and 4 is not
rectangular, yet construction accepts it, because the size check
(width + 1) * height = length coincidentally holds. -/
theorem levelmap_ragged_accepted :
    (LevelMap.make ("###\n##\n####\n".toList)).isSome = true := by decide

/-- C4 amended: construction rejects a layout whose computed width or height
is below 3 (in particular the 2-row layout) or whose size differs from
(width + 1) * height, and every accepted map satisfies width at least 3,
height at least 3 and format length (width + 1) * height; but layouts with
inconsistent row lengths whose total size matches are accepted. -/
theorem levelmap_construction_amended :
    (∀ (fmt : List Char) (M : LevelMap), LevelMap.make fmt = some M →
      3 ≤ M.width ∧ 3 ≤ M.height ∧ fmt.length = (M.width + 1) * M.height ∧ M.format = fmt) ∧
    LevelMap.make ("###\n###\n".toList) = none := by
  constructor
  · intro fmt M h
    simp only [LevelMap.make] at h
    by_cases h1 : findFirstNewline fmt < 3 ∨ findLastNewline fmt / findFirstNewline fmt < 3
    · rw [if_pos h1] at h
      exact absurd h (by simp)
    · rw [if_neg h1] at h
      by_cases h2 : (findFirstNewline fmt + 1) * (findLastNewline fmt / findFirstNewline fmt) ≠
          fmt.length
      · rw [if_pos h2] at h
        exact absurd h (by simp)
      · rw [if_neg h2] at h
        simp only [Option.some.injEq] at h
        push_neg at h1 h2
        subst h
        exact ⟨h1.1, h1.2, h2.symm, rfl⟩
  · decide

/-- Witness for C4: the hard-coded 20 by 12 game map is accepted and
satisfies the amended construction invariants. -/
theorem levelmap_construction_amended_witness :
    3 ≤ gameMap.width ∧ 3 ≤ gameMap.height ∧
      gameFormat.length = (gameMap.width + 1) * gameMap.height ∧ gameMap.format = gameFormat :=
  levelmap_construction_amended.1 gameFormat gameMap make_gameFormat

/-- C5 counterexample: at distance 1 the shade mapping computes bucket
floor(clamp(15 - 2, 0, 15) * 16 / 15) = 13, but the claimed formula
floor((15 - 1) * 16 / 15) clamped gives 14. -/
theorem shade_formula_cx :
    shadeBucket 1 = 13 ∧ specShadeBucket 1 = 14 ∧ shadeBucket 1 ≠ specShadeBucket 1 := by
  have h1 : shadeBucket 1 = 13 := by
    unfold shadeBucket
    rw [show min (max (15 - 2 * (1 : ℚ)) 0) 15 * (16 / 15 : ℚ) = 208 / 15 from by norm_num,
      show ((208 : ℚ) / 15) = ((13 : ℚ) + 13 / 15) from by norm_num]
    norm_num
    rfl
  have h2 : specShadeBucket 1 = 14 := by
    unfold specShadeBucket
    rw [show ((15 : ℚ) - 1) * 16 / 15 = ((14 : ℚ) + 14 / 15) from by norm_num]
    norm_num
    rfl
  exact ⟨h1, h2, by omega⟩

/-- C5 amended: for 0 < d < 15 the mapping uses the doubled-distance
formula: the bucket is floor(clamp(15 - 2 d, 0, 15) * 16 / 15), it stays in
[0, 15], and the returned shade is WALL_SHADES at index 15 - bucket. -/
theorem shade_formula_amended (d : ℚ) (h0 : 0 < d) (h15 : d < 15) :
    shadeBucket d ≤ 15 ∧
    shadeBucket d = (⌊min (max (15 - 2 * d) 0) 15 * (16 / 15 : ℚ)⌋).toNat ∧
    distance_to_wall_shade d = some (WALL_SHADES (15 - shadeBucket d)) := by
  obtain ⟨ha, hb⟩ := shade_eval d h0 h15
  exact ⟨ha, rfl, hb⟩

/-- Witness for C5 at distance 1. -/
theorem shade_formula_amended_witness :
    shadeBucket 1 ≤ 15 ∧ distance_to_wall_shade (1 : ℚ) = some (WALL_SHADES (15 - shadeBucket 1)) :=
  ⟨(shade_formula_amended 1 (by norm_num) (by norm_num)).1,
    (shade_formula_amended 1 (by norm_num) (by norm_num)).2.2⟩

/-- C6: the shade bucket is non-increasing in the distance: a strictly
larger distance never yields a higher-opacity bucket, over [0, 15). -/
theorem shade_bucket_monotone (d1 d2 : ℚ) (_h0 : 0 ≤ d1) (h12 : d1 ≤ d2) (_h15 : d2 < 15) :
    shadeBucket d2 ≤ shadeBucket d1 :=
  shadeBucket_antitone d1 d2 h12

/-- Witness for C6 at distances 2 and 3. -/
theorem shade_bucket_monotone_witness : shadeBucket 3 ≤ shadeBucket 2 :=
  shade_bucket_monotone 2 3 (by norm_num) (by norm_num) (by norm_num)

/-- C7: for a heading in [0, 2 pi), turn_cw yields
(heading + 0.1) mod 2 pi and turn_ccw yields
(heading - 0.1 + 2 pi) mod 2 pi (each written with its floor expansion);
both results lie in [0, 2 pi), turns are always committed, and the moves
leave the heading untouched. -/
theorem turn_wrap (p : Player) (h0 : 0 ≤ p.angle) (_h1 : p.angle < PI2) :
    ((p.turn_cw).angle =
        (p.angle + 1 / 10) - PI2 * ⌊(p.angle + 1 / 10) / PI2⌋ ∧
      0 ≤ (p.turn_cw).angle ∧ (p.turn_cw).angle < PI2) ∧
    ((p.turn_ccw).angle =
        (p.angle - 1 / 10 + PI2) - PI2 * ⌊(p.angle - 1 / 10 + PI2) / PI2⌋ ∧
      0 ≤ (p.turn_ccw).angle ∧ (p.turn_ccw).angle < PI2) ∧
    (p.move_up).angle = p.angle ∧ (p.move_down).angle = p.angle := by
  have hpi : (0 : ℝ) < PI2 := by
    unfold PI2
    positivity
  have harg1 : (0 : ℝ) ≤ p.angle + 1 / 10 := by linarith
  have harg2 : (0 : ℝ) ≤ p.angle - 1 / 10 + PI2 := by
    have h3 : (3 : ℝ) < Real.pi := Real.pi_gt_three
    unfold PI2 at hpi ⊢
    linarith
  obtain ⟨e1, n1, l1⟩ := cFmod_nonneg_lt (p.angle + 1 / 10) PI2 harg1 hpi
  obtain ⟨e2, n2, l2⟩ := cFmod_nonneg_lt (p.angle - 1 / 10 + PI2) PI2 harg2 hpi
  exact ⟨⟨e1, n1, l1⟩, ⟨e2, n2, l2⟩, rfl, rfl⟩

/-- Witness for C7 at the initial player pose (7, 1, 0). -/
theorem turn_wrap_witness :
    0 ≤ ((Player.mk 7 1 0).turn_cw).angle ∧ ((Player.mk 7 1 0).turn_cw).angle < PI2 ∧
      ((Player.mk 7 1 0).move_up).angle = 0 := by
  have h := turn_wrap ⟨7, 1, 0⟩ le_rfl (by unfold PI2; positivity)
  exact ⟨h.1.2.1, h.1.2.2, h.2.2.1⟩

/-- C9: the per-column render pass is deterministic: two players with equal
pose against the same map and screen produce identical column outputs
(hit flag, distance, boundary flag, split rows, shade, and every glyph). -/
theorem render_deterministic (p q : Player) (M : LevelMap) (w h x : ℕ)
    (hx : p.x = q.x) (hy : p.y = q.y) (ha : p.angle = q.angle) :
    renderColumn p M w h x = renderColumn q M w h x := by
  obtain ⟨px, py, pa⟩ := p
  obtain ⟨qx, qy, qa⟩ := q
  dsimp only at hx hy ha
  subst hx
  subst hy
  subst ha
  rfl

/-- Witness for C9 at the initial pose on the game map. -/
theorem render_deterministic_witness :
    renderColumn ⟨7, 1, 0⟩ gameMap 80 24 0 = renderColumn ⟨7, 1, 0⟩ gameMap 80 24 0 :=
  render_deterministic ⟨7, 1, 0⟩ ⟨7, 1, 0⟩ gameMap 80 24 0 rfl rfl rfl


end Raycast
